import Mathlib

/-!
Verification of the interactive report-generation workflow implemented in
`main.py` (`generate_report` and `main`).

The program negotiates a report structure and then per-section content with
an external generation collaborator (two pydantic-ai agents) under
human-in-the-loop accept/revise decisions, and concatenates the accepted
sections into one document.

Shallow embedding conventions:
* The external collaborator and the human console are modelled as an
  environment (`Env`) of response streams indexed by call count: the n-th
  call of `delegation_agent.run` receives `env.delegation_run n`, the n-th
  `Prompt.ask` receives `env.ask n`, the n-th `input()` receives
  `env.feedback n`.  A collaborator response is either a payload together
  with the full updated conversation history (`result.all_messages()`), or
  an error (the agent's internal retry budget was exhausted).
* The unbounded `while True` loops take an explicit fuel parameter; running
  out of fuel is an artifact of the embedding (`RunError.outOfFuel`),
  distinct from a collaborator failure (`RunError.collab`).
* Every collaborator call is logged in a trace (`CallRecord`): which agent
  was called, the prompt string, the `deps` object, the `message_history`
  passed in, and the response.  Claims about prompts, history threading and
  failure behaviour are stated over this trace.
* Conversation messages are opaque to `generate_report`; we model a
  history as a list of opaque messages.
-/

namespace ReportGen

/-- main.py, `SubSection`: structure for a subsection of the report. -/
structure SubSection where
  title : String
  content : Option String := none
  deriving DecidableEq

/-- main.py, `ReportSection`: structure for a section of the report. -/
structure ReportSection where
  title : String
  content : Option String := none
  subsections : List SubSection := []
  deriving DecidableEq

/-- main.py, `ReportStructure`: overall structure of the report. -/
structure ReportStructure where
  title : String
  sections : List ReportSection
  abstract : Option String := none
  deriving DecidableEq

/-- main.py, `ReportContent`: final report content. -/
structure ReportContent where
  «structure» : ReportStructure
  content : String
  deriving DecidableEq

/-- main.py, `Deps`: dependency context shared by all collaborator calls. -/
structure Deps where
  source_documents : List String
  topic : String
  additional_context : Option String := none
  deriving DecidableEq

/-- A conversation message (pydantic-ai `ModelMessage`); its internal
structure is never inspected by `generate_report`, so we model it as an
opaque string. -/
abbrev ModelMessage := String

/-- A conversation history: the value returned by `result.all_messages()`
and passed back via the `message_history` keyword. -/
abbrev History := List ModelMessage

/-- A collaborator call that failed after the agent's internal retry budget
(`retries=2`) was exhausted; in the source this surfaces as an exception
from `agent.run`. -/
structure CollabError where
  msg : String
  deriving DecidableEq

/-- How a run of `generate_report` can fail to return a `ReportContent`. -/
inductive RunError
  /-- Artifact of the shallow embedding: the fuel bound for a `while True`
  loop ran out before a terminating decision was reached. -/
  | outOfFuel
  /-- A collaborator exception propagated out of `generate_report`. -/
  | collab (e : CollabError)
  deriving DecidableEq

/-- Which agent a collaborator call was addressed to. -/
inductive AgentKind
  | delegation
  | writer
  deriving DecidableEq

/-- Payload of a successful collaborator response (`result.data`). -/
inductive CallData
  | structData (s : ReportStructure)
  | textData (t : String)
  deriving DecidableEq

deriving instance DecidableEq for Except

/-- Log entry for one collaborator call: everything `generate_report`
passed into `agent.run`, plus the response. -/
structure CallRecord where
  agent : AgentKind
  prompt : String
  deps : Deps
  historyIn : Option History
  result : Except CollabError (CallData × History)
  deriving DecidableEq

/-- Interpreter state: the trace of collaborator calls made so far and how
many console answers (`Prompt.ask`) and feedback lines (`input()`) have
been consumed. -/
structure RunState where
  trace : List CallRecord
  askN : Nat
  feedN : Nat
  deriving DecidableEq

/-- The environment: response streams for the two collaborator agents and
the two console primitives, indexed by call count.  `Prompt.ask` re-prompts
until the answer is one of the allowed choices, so `ask` is intended to
range over those choices; the code only ever compares the answer against
`"accept"`. -/
structure Env where
  delegation_run : Nat → Except CollabError (ReportStructure × History)
  writer_run : Nat → Except CollabError (String × History)
  ask : Nat → String
  feedback : Nat → String

/-- Number of delegation-agent calls recorded in a trace. -/
def delegCount (t : List CallRecord) : Nat :=
  (t.filter fun r => r.agent = AgentKind.delegation).length

/-- Number of writer-agent calls recorded in a trace. -/
def writerCount (t : List CallRecord) : Nat :=
  (t.filter fun r => r.agent = AgentKind.writer).length

/-- A section-drafting call: a writer-agent call made with no conversation
history (main.py line 141 passes no `message_history`). -/
def isDraftCall (r : CallRecord) : Bool :=
  match r.agent, r.historyIn with
  | AgentKind.writer, none => true
  | _, _ => false

/-- Python `str` literal rendering used when a string is interpolated
inside the repr of a list or model (escaping inside the quotes is not
modelled; no claim depends on it). -/
def pyStr (s : String) : String := "'" ++ s ++ "'"

/-- Python repr of a list, given a repr for its elements. -/
def pyList (f : α → String) (xs : List α) : String :=
  "[" ++ String.intercalate ", " (xs.map f) ++ "]"

/-- Python repr of an `Optional[str]` field value. -/
def pyOptStr : Option String → String
  | none => "None"
  | some s => pyStr s

/-- Repr of a `SubSection` as it appears nested inside a model repr. -/
def subSectionRepr (ss : SubSection) : String :=
  "SubSection(title=" ++ pyStr ss.title ++ ", content=" ++ pyOptStr ss.content ++ ")"

/-- Repr of a `ReportSection` as it appears nested inside a model repr. -/
def reportSectionRepr (sec : ReportSection) : String :=
  "ReportSection(title=" ++ pyStr sec.title ++ ", content=" ++ pyOptStr sec.content
    ++ ", subsections=" ++ pyList subSectionRepr sec.subsections ++ ")"

/-- Rendering of `{result.data}` for a `ReportStructure` (pydantic model
`str()`), as interpolated into the structure-revision prompt. -/
def structRepr (s : ReportStructure) : String :=
  "title=" ++ pyStr s.title ++ " sections=" ++ pyList reportSectionRepr s.sections
    ++ " abstract=" ++ pyOptStr s.abstract

/-- main.py line 99: the initial structure-request prompt. -/
def structRequestPrompt (topic : String) : String :=
  "Create a report structure for topic: " ++ topic

/-- main.py line 119: the structure-revision prompt. -/
def structRevisePrompt (feedback : String) (current : ReportStructure) : String :=
  "Revise the report structure based on feedback: " ++ feedback
    ++ ", this is currently the structure: " ++ structRepr current

/-- main.py line 142: the section-drafting prompt. -/
def sectionDraftPrompt (title topic : String) (source_docs : List String) : String :=
  "Write the " ++ title ++ " section for the report on " ++ topic
    ++ " make sure you use the sources " ++ pyList pyStr source_docs
    ++ " and only use the sources you have been given and cite them in harvard style"

/-- main.py line 163: the section-revision prompt. -/
def sectionRevisePrompt (title feedback : String) : String :=
  "Revise the " ++ title ++ " section based on feedback: " ++ feedback

/-- main.py line 158: the block appended to `complete_report` when a
section is accepted. -/
def sectionBlock (title content : String) : String :=
  "\n\n# " ++ title ++ "\n\n" ++ content

/-- main.py lines 69-84: the `suggest_structure` tool registered on the
delegation agent (available to the model; not called by `generate_report`
itself). -/
def suggest_structure (deps : Deps) : ReportStructure :=
  { title := deps.topic
    sections :=
      [ { title := "Abstract" }
      , { title := "Introduction" }
      , { title := "Background" }
      , { title := "Methodology" }
      , { title := "Results" }
      , { title := "Discussion" }
      , { title := "Conclusion" } ] }

/-- Log a delegation-agent call (`delegation_agent.run`) in the trace. -/
def logDeleg (env : Env) (st : RunState) (prompt : String) (deps : Deps)
    (hist : Option History) : RunState :=
  ⟨st.trace ++ [⟨AgentKind.delegation, prompt, deps, hist,
      (env.delegation_run (delegCount st.trace)).map
        fun p => (CallData.structData p.1, p.2)⟩],
   st.askN, st.feedN⟩

/-- Log a writer-agent call (`writer_agent.run`) in the trace. -/
def logWriter (env : Env) (st : RunState) (prompt : String) (deps : Deps)
    (hist : Option History) : RunState :=
  ⟨st.trace ++ [⟨AgentKind.writer, prompt, deps, hist,
      (env.writer_run (writerCount st.trace)).map
        fun p => (CallData.textData p.1, p.2)⟩],
   st.askN, st.feedN⟩

/-- Consume one console answer (`Prompt.ask`). -/
def bumpAsk (st : RunState) : RunState := ⟨st.trace, st.askN + 1, st.feedN⟩

/-- Consume one feedback line (`input()`). -/
def bumpFeed (st : RunState) : RunState := ⟨st.trace, st.askN, st.feedN + 1⟩

/-- main.py lines 97-134: the structure refinement loop with human
feedback.  `message_history` is the variable initialized to `None` at line
93; it is never reassigned inside the loop, so each new round's initial
call passes the same value.  One loop iteration makes the initial request,
reads a decision, and on `modify` makes one revision request (passing the
history returned by the initial request) and reads a second decision; if
that is again not `accept` the `while True` loop runs another iteration. -/
def structure_loop (env : Env) (deps : Deps) (topic : String)
    (message_history : Option History) :
    Nat → RunState → RunState × Except RunError ReportStructure
  | 0, st => (st, Except.error RunError.outOfFuel)
  | fuel + 1, st =>
    let st1 := logDeleg env st (structRequestPrompt topic) deps message_history
    match env.delegation_run (delegCount st.trace) with
    | Except.error e => (st1, Except.error (RunError.collab e))
    | Except.ok sh =>
      if env.ask st1.askN = "accept" then
        (bumpAsk st1, Except.ok sh.1)
      else
        let st1a := bumpFeed (bumpAsk st1)
        let st2 := logDeleg env st1a
          (structRevisePrompt (env.feedback st1.feedN) sh.1) deps (some sh.2)
        match env.delegation_run (delegCount st1a.trace) with
        | Except.error e => (st2, Except.error (RunError.collab e))
        | Except.ok sh2 =>
          if env.ask st2.askN = "accept" then
            (bumpAsk st2, Except.ok sh2.1)
          else
            structure_loop env deps topic message_history fuel (bumpAsk st2)

/-- main.py lines 150-168: the per-section accept/revise loop.  `content`
and `hist` are the current candidate (`section_content.data`) and its
history (`section_content.all_messages()`); each revision call passes the
current history and replaces both. -/
def section_loop (env : Env) (deps : Deps) (title : String) :
    Nat → RunState → String → History → RunState × Except RunError String
  | 0, st, _, _ => (st, Except.error RunError.outOfFuel)
  | fuel + 1, st, content, hist =>
    if env.ask st.askN = "accept" then
      (bumpAsk st, Except.ok content)
    else
      let st1 := bumpFeed (bumpAsk st)
      let st2 := logWriter env st1
        (sectionRevisePrompt title (env.feedback st.feedN)) deps (some hist)
      match env.writer_run (writerCount st1.trace) with
      | Except.error e => (st2, Except.error (RunError.collab e))
      | Except.ok ch => section_loop env deps title fuel st2 ch.1 ch.2

/-- main.py lines 138-168: generate content section by section.  For each
section: one drafting call with no history, then the accept/revise loop;
on accept the block for the accepted candidate is appended to
`complete_report`. -/
def sections_loop (env : Env) (deps : Deps) (topic : String)
    (source_docs : List String) :
    List ReportSection → Nat → RunState → String → RunState × Except RunError String
  | [], _, st, complete_report => (st, Except.ok complete_report)
  | sec :: rest, fuel, st, complete_report =>
    let st1 := logWriter env st (sectionDraftPrompt sec.title topic source_docs) deps none
    match env.writer_run (writerCount st.trace) with
    | Except.error e => (st1, Except.error (RunError.collab e))
    | Except.ok ch =>
      match section_loop env deps sec.title fuel st1 ch.1 ch.2 with
      | (st2, Except.error e) => (st2, Except.error e)
      | (st2, Except.ok accepted) =>
        sections_loop env deps topic source_docs rest fuel st2
          (complete_report ++ sectionBlock sec.title accepted)

/-- The empty interpreter state at the start of a run. -/
def initState : RunState := ⟨[], 0, 0⟩

/-- main.py lines 86-173: `generate_report`.  Builds `Deps` once, runs the
structure negotiation loop, then the section loops over the accepted
structure's sections, and returns the terminal `ReportContent`.  The
returned `RunState` carries the trace of all collaborator calls made. -/
def generate_report (env : Env) (fuel : Nat) (source_docs : List String)
    (topic : String) (context : Option String) :
    RunState × Except RunError ReportContent :=
  let deps : Deps := ⟨source_docs, topic, context⟩
  let message_history : Option History := none
  match structure_loop env deps topic message_history fuel initState with
  | (st, Except.error e) => (st, Except.error e)
  | (st, Except.ok final_structure) =>
    match sections_loop env deps topic source_docs final_structure.sections fuel st "" with
    | (st2, Except.error e) => (st2, Except.error e)
    | (st2, Except.ok complete_report) =>
      (st2, Except.ok ⟨final_structure, complete_report⟩)

/-- main.py lines 195-206: the hard-coded topic used by `main`. -/
def mainTopic : String :=
  "Writing a progress report for my final year project. The project is called Jarvis which is a multi agent architecture\n    with Human like memory to be a super useful personal assistant and have the ability to perform tasks as well.\n    Multi-Modal Interaction: The system supports both text-based and voice-based interaction,\n    accommodating diverse user preferences and contexts through integrated speech recognition\n    and synthesis technologies.\n    Platform and Device Integration: The implementation provides seamless integration with\n    popular applications and services, including messaging platforms (e.g., Discord, email),\n    mobile applications, and potential augmented reality interfaces, requiring platform-specific\n    API development and integration modules.\n    Natural Language Interface: The system prioritizes natural language interaction, enabling\n    conversational communication while minimizing specific command requirements, leveraging\n    advances in natural language understanding and generation "

/-- main.py lines 183-217: `main`, modelled at the level relevant to the
output file.  The PDF loading step is external and supplies `source_docs`;
the output filename is timestamp-derived (real time, not modelled).  The
result is the contents of the output file written by the run, or `none`
when an exception aborts the run before the `open(filename, "w")` line. -/
def main_output (env : Env) (fuel : Nat) (source_docs : List String) : Option String :=
  match generate_report env fuel source_docs mainTopic none with
  | (_, Except.ok report) => some report.content
  | (_, Except.error _) => none

/-- Concatenation of a list of strings, in order. -/
def concatList : List String → String
  | [] => ""
  | s :: rest => s ++ concatList rest

/-- History-threading relation between consecutive trace records: if the
later call passes a history at all, it is exactly the history returned by
the immediately preceding call, and that call belongs to the same agent
(hence the same negotiation thread). -/
def linked (a b : CallRecord) : Prop :=
  ∀ h, b.historyIn = some h → b.agent = a.agent ∧ ∃ d, a.result = Except.ok (d, h)

/-! Small rewriting lemmas about the state helpers and call counters. -/

@[simp] theorem logDeleg_trace (env : Env) (st : RunState) (p : String) (d : Deps)
    (h : Option History) :
    (logDeleg env st p d h).trace
      = st.trace ++ [⟨AgentKind.delegation, p, d, h,
          (env.delegation_run (delegCount st.trace)).map
            fun q => (CallData.structData q.1, q.2)⟩] := rfl

@[simp] theorem logDeleg_askN (env : Env) (st : RunState) (p : String) (d : Deps)
    (h : Option History) : (logDeleg env st p d h).askN = st.askN := rfl

@[simp] theorem logDeleg_feedN (env : Env) (st : RunState) (p : String) (d : Deps)
    (h : Option History) : (logDeleg env st p d h).feedN = st.feedN := rfl

@[simp] theorem logWriter_trace (env : Env) (st : RunState) (p : String) (d : Deps)
    (h : Option History) :
    (logWriter env st p d h).trace
      = st.trace ++ [⟨AgentKind.writer, p, d, h,
          (env.writer_run (writerCount st.trace)).map
            fun q => (CallData.textData q.1, q.2)⟩] := rfl

@[simp] theorem logWriter_askN (env : Env) (st : RunState) (p : String) (d : Deps)
    (h : Option History) : (logWriter env st p d h).askN = st.askN := rfl

@[simp] theorem logWriter_feedN (env : Env) (st : RunState) (p : String) (d : Deps)
    (h : Option History) : (logWriter env st p d h).feedN = st.feedN := rfl

@[simp] theorem bumpAsk_trace (st : RunState) : (bumpAsk st).trace = st.trace := rfl
@[simp] theorem bumpAsk_askN (st : RunState) : (bumpAsk st).askN = st.askN + 1 := rfl
@[simp] theorem bumpAsk_feedN (st : RunState) : (bumpAsk st).feedN = st.feedN := rfl
@[simp] theorem bumpFeed_trace (st : RunState) : (bumpFeed st).trace = st.trace := rfl
@[simp] theorem bumpFeed_askN (st : RunState) : (bumpFeed st).askN = st.askN := rfl
@[simp] theorem bumpFeed_feedN (st : RunState) : (bumpFeed st).feedN = st.feedN + 1 := rfl

@[simp] theorem delegCount_nil : delegCount [] = 0 := rfl

@[simp] theorem delegCount_append (t u : List CallRecord) :
    delegCount (t ++ u) = delegCount t + delegCount u := by
  simp [delegCount, List.filter_append]

@[simp] theorem delegCount_cons (r : CallRecord) (t : List CallRecord) :
    delegCount (r :: t)
      = (if r.agent = AgentKind.delegation then 1 else 0) + delegCount t := by
  simp only [delegCount, List.filter_cons]
  split <;> simp_all [Nat.add_comm]

@[simp] theorem writerCount_nil : writerCount [] = 0 := rfl

@[simp] theorem writerCount_append (t u : List CallRecord) :
    writerCount (t ++ u) = writerCount t + writerCount u := by
  simp [writerCount, List.filter_append]

@[simp] theorem writerCount_cons (r : CallRecord) (t : List CallRecord) :
    writerCount (r :: t)
      = (if r.agent = AgentKind.writer then 1 else 0) + writerCount t := by
  simp only [writerCount, List.filter_cons]
  split <;> simp_all [Nat.add_comm]

/-! Specification lemma for the structure negotiation loop: how it extends
the trace.  Stated for `message_history = none`, which is the only value
`generate_report` ever passes (line 93 initializes it to `None` and it is
never reassigned). -/

theorem structure_loop_spec (env : Env) (deps : Deps) (topic : String) :
    ∀ fuel st st2 r, structure_loop env deps topic none fuel st = (st2, r) →
    ∃ new, st2.trace = st.trace ++ new
      ∧ (∀ rec ∈ new, rec.deps = deps ∧ rec.agent = AgentKind.delegation
          ∧ ((rec.historyIn = none ∧ rec.prompt = structRequestPrompt topic)
             ∨ ∃ fb s h, rec.historyIn = some h ∧ rec.prompt = structRevisePrompt fb s))
      ∧ List.Chain' linked new
      ∧ (∀ rec ∈ new.head?, rec.historyIn = none)
      ∧ ((∀ e, r ≠ Except.error (RunError.collab e)) → ∀ rec ∈ new, ∃ x, rec.result = Except.ok x)
      ∧ (0 < fuel → ∃ rest, new = ⟨AgentKind.delegation, structRequestPrompt topic, deps, none,
            (env.delegation_run (delegCount st.trace)).map
              fun q => (CallData.structData q.1, q.2)⟩ :: rest) := by
  intro fuel
  induction fuel with
  | zero =>
    intro st st2 r h
    simp only [structure_loop] at h
    injection h with h1 h2
    subst h1; subst h2
    exact ⟨[], by simp, by simp, by simp, by simp, by simp, by simp⟩
  | succ fuel ih =>
    intro st st2 r h
    simp only [structure_loop] at h
    cases hc : env.delegation_run (delegCount st.trace) with
    | error e =>
      rw [hc] at h
      injection h with h1 h2
      subst h1; subst h2
      refine ⟨_, rfl, ?_, ?_, ?_, ?_, ?_⟩
      · intro rec hrec
        simp only [logDeleg_trace, List.mem_singleton] at hrec
        subst hrec
        exact ⟨rfl, rfl, Or.inl ⟨rfl, rfl⟩⟩
      · exact List.chain'_singleton _
      · intro rec hrec
        simp only [logDeleg_trace, List.head?_cons, Option.mem_def,
          Option.some.injEq] at hrec
        subst hrec; rfl
      · intro hne; exact absurd rfl (hne e)
      · intro _
        refine ⟨[], ?_⟩
        try rw [hc]
        try rfl
    | ok sh =>
      rw [hc] at h
      simp only [logDeleg_askN] at h
      by_cases ha : env.ask st.askN = "accept"
      · rw [if_pos ha] at h
        injection h with h1 h2
        subst h1; subst h2
        refine ⟨_, rfl, ?_, ?_, ?_, ?_, ?_⟩
        · intro rec hrec
          simp only [bumpAsk_trace, logDeleg_trace, List.mem_singleton] at hrec
          subst hrec
          exact ⟨rfl, rfl, Or.inl ⟨rfl, rfl⟩⟩
        · exact List.chain'_singleton _
        · intro rec hrec
          simp only [bumpAsk_trace, logDeleg_trace, List.head?_cons, Option.mem_def,
            Option.some.injEq] at hrec
          subst hrec; rfl
        · intro _ rec hrec
          simp only [bumpAsk_trace, logDeleg_trace, List.mem_singleton] at hrec
          subst hrec
          exact ⟨_, by rw [hc]; rfl⟩
        · intro _
          refine ⟨[], ?_⟩
          try rw [hc]
          try rfl
      · rw [if_neg ha] at h
        simp only [logDeleg_feedN, bumpAsk_askN, bumpFeed_trace, bumpAsk_trace,
          logDeleg_trace, delegCount_append, delegCount_cons, delegCount_nil,
          bumpFeed_feedN, bumpFeed_askN, logDeleg_askN, if_true, add_zero] at h
        cases hc2 : env.delegation_run (delegCount st.trace + 1) with
        | error e2 =>
          rw [hc2] at h
          injection h with h1 h2
          subst h1; subst h2
          refine ⟨_, by simp only [logDeleg_trace, bumpAsk_trace, bumpFeed_trace,
            List.append_assoc]; rfl, ?_, ?_, ?_, ?_, ?_⟩
          · intro rec hrec
            simp only [List.mem_append, List.mem_singleton] at hrec
            rcases hrec with hrec | hrec
            · subst hrec; exact ⟨rfl, rfl, Or.inl ⟨rfl, rfl⟩⟩
            · subst hrec; exact ⟨rfl, rfl, Or.inr ⟨_, _, _, rfl, rfl⟩⟩
          · refine List.chain'_cons.mpr ⟨?_, List.chain'_singleton _⟩
            intro hh hsome
            simp only [Option.some.injEq] at hsome
            subst hsome
            exact ⟨rfl, ⟨_, by rw [hc]; rfl⟩⟩
          · intro rec hrec
            simp only [List.singleton_append, List.head?_cons, Option.mem_def,
              Option.some.injEq] at hrec
            subst hrec; rfl
          · intro hne; exact absurd rfl (hne e2)
          · intro _
            exact ⟨_, by (try rw [hc]); try rfl⟩
        | ok sh2 =>
          rw [hc2] at h
          by_cases ha2 : env.ask (st.askN + 1) = "accept"
          · simp only [if_pos ha2] at h
            injection h with h1 h2
            subst h1; subst h2
            refine ⟨_, by simp only [bumpAsk_trace, logDeleg_trace, bumpFeed_trace,
              List.append_assoc]; rfl, ?_, ?_, ?_, ?_, ?_⟩
            · intro rec hrec
              simp only [List.mem_append, List.mem_singleton] at hrec
              rcases hrec with hrec | hrec
              · subst hrec; exact ⟨rfl, rfl, Or.inl ⟨rfl, rfl⟩⟩
              · subst hrec; exact ⟨rfl, rfl, Or.inr ⟨_, _, _, rfl, rfl⟩⟩
            · refine List.chain'_cons.mpr ⟨?_, List.chain'_singleton _⟩
              intro hh hsome
              simp only [Option.some.injEq] at hsome
              subst hsome
              exact ⟨rfl, ⟨_, by rw [hc]; rfl⟩⟩
            · intro rec hrec
              simp only [List.singleton_append, List.head?_cons, Option.mem_def,
                Option.some.injEq] at hrec
              subst hrec; rfl
            · intro _ rec hrec
              simp only [List.mem_append, List.mem_singleton] at hrec
              rcases hrec with hrec | hrec
              · subst hrec; exact ⟨_, by rw [hc]; rfl⟩
              · subst hrec; exact ⟨_, by simp only [delegCount_append, delegCount_cons, delegCount_nil,
                  eq_self_iff_true, if_true, add_zero]; rw [hc2]; rfl⟩
            · intro _
              exact ⟨_, by (try rw [hc]); try rfl⟩
          · simp only [if_neg ha2] at h
            obtain ⟨new2, htr, hmem, hchain, hhead, hok, hfirst⟩ := ih _ _ _ h
            simp only [bumpAsk_trace, logDeleg_trace, bumpFeed_trace,
              List.append_assoc] at htr
            refine ⟨_, by rw [htr], ?_, ?_, ?_, ?_, ?_⟩
            · intro rec hrec
              simp only [List.mem_append, List.mem_singleton] at hrec
              rcases hrec with hrec | hrec | hrec
              · subst hrec; exact ⟨rfl, rfl, Or.inl ⟨rfl, rfl⟩⟩
              · subst hrec; exact ⟨rfl, rfl, Or.inr ⟨_, _, _, rfl, rfl⟩⟩
              · exact hmem rec hrec
            · refine List.chain'_cons.mpr ⟨?_, List.chain'_cons'.mpr ⟨?_, hchain⟩⟩
              · intro hh hsome
                simp only [Option.some.injEq] at hsome
                subst hsome
                exact ⟨rfl, ⟨_, by rw [hc]; rfl⟩⟩
              · intro y hy hh hsome
                exact absurd hsome (by rw [hhead y hy]; simp)
            · intro rec hrec
              simp only [List.singleton_append, List.head?_cons, Option.mem_def,
                Option.some.injEq] at hrec
              subst hrec; rfl
            · intro hne rec hrec
              simp only [List.mem_append, List.mem_singleton] at hrec
              rcases hrec with hrec | hrec | hrec
              · subst hrec; exact ⟨_, by rw [hc]; rfl⟩
              · subst hrec; exact ⟨_, by simp only [delegCount_append, delegCount_cons, delegCount_nil,
                  eq_self_iff_true, if_true, add_zero]; rw [hc2]; rfl⟩
              · exact hok hne rec hrec
            · intro _
              exact ⟨_, by (try rw [hc]); try rfl⟩

/-! Specification lemma for one section's accept/revise sub-loop: how it
extends the trace, and that on success the returned value is the current
candidate or the payload of one of the revision calls it recorded. -/

theorem section_loop_spec (env : Env) (deps : Deps) (title : String) :
    ∀ fuel st content hist st2 r,
    section_loop env deps title fuel st content hist = (st2, r) →
    ∃ new, st2.trace = st.trace ++ new
      ∧ (∀ rec ∈ new, rec.deps = deps ∧ rec.agent = AgentKind.writer
          ∧ ∃ fb h, rec.historyIn = some h ∧ rec.prompt = sectionRevisePrompt title fb)
      ∧ List.Chain' linked new
      ∧ (∀ rec ∈ new.head?, rec.historyIn = some hist)
      ∧ ((∀ e, r ≠ Except.error (RunError.collab e)) → ∀ rec ∈ new, ∃ x, rec.result = Except.ok x)
      ∧ (∀ out, r = Except.ok out → out = content
          ∨ ∃ rec ∈ new, ∃ h, rec.result = Except.ok (CallData.textData out, h)) := by
  intro fuel
  induction fuel with
  | zero =>
    intro st content hist st2 r h
    simp only [section_loop] at h
    injection h with h1 h2
    subst h1; subst h2
    refine ⟨[], by simp, by simp, by simp, by simp, by simp, ?_⟩
    intro out hout
    exact Except.noConfusion hout
  | succ fuel ih =>
    intro st content hist st2 r h
    simp only [section_loop] at h
    by_cases ha : env.ask st.askN = "accept"
    · rw [if_pos ha] at h
      injection h with h1 h2
      subst h1; subst h2
      refine ⟨[], by simp, by simp, by simp, by simp, by simp, ?_⟩
      intro out hout
      injection hout with h3
      exact Or.inl h3.symm
    · rw [if_neg ha] at h
      simp only [bumpFeed_trace, bumpAsk_trace, bumpFeed_feedN, bumpAsk_feedN,
        bumpFeed_askN, bumpAsk_askN] at h
      cases hw : env.writer_run (writerCount st.trace) with
      | error e =>
        rw [hw] at h
        injection h with h1 h2
        subst h1; subst h2
        refine ⟨_, rfl, ?_, List.chain'_singleton _, ?_, ?_, ?_⟩
        · intro rec hrec
          simp only [logWriter_trace, bumpFeed_trace, bumpAsk_trace,
            List.mem_singleton] at hrec
          subst hrec
          exact ⟨rfl, rfl, _, _, rfl, rfl⟩
        · intro rec hrec
          simp only [logWriter_trace, bumpFeed_trace, bumpAsk_trace, List.head?_cons,
            Option.mem_def, Option.some.injEq] at hrec
          subst hrec; rfl
        · intro hne; exact absurd rfl (hne e)
        · intro out hout
          exact Except.noConfusion hout
      | ok ch =>
        rw [hw] at h
        obtain ⟨new2, htr, hmem, hchain, hhead, hok, hacc⟩ := ih _ _ _ _ _ h
        simp only [logWriter_trace, bumpFeed_trace, bumpAsk_trace,
          List.append_assoc] at htr
        refine ⟨_, by rw [htr], ?_, ?_, ?_, ?_, ?_⟩
        · intro rec hrec
          simp only [List.mem_append, List.mem_singleton] at hrec
          rcases hrec with hrec | hrec
          · subst hrec; exact ⟨rfl, rfl, _, _, rfl, rfl⟩
          · exact hmem rec hrec
        · refine List.chain'_cons'.mpr ⟨?_, hchain⟩
          intro y hy hh hsome
          have hy2 := hhead y hy
          rw [hy2] at hsome
          simp only [Option.some.injEq] at hsome
          subst hsome
          refine ⟨(hmem y (List.mem_of_mem_head? hy)).2.1, ⟨CallData.textData ch.1, ?_⟩⟩
          rw [hw]; rfl
        · intro rec hrec
          simp only [List.singleton_append, List.head?_cons, Option.mem_def,
            Option.some.injEq] at hrec
          subst hrec; rfl
        · intro hne rec hrec
          simp only [List.mem_append, List.mem_singleton] at hrec
          rcases hrec with hrec | hrec
          · subst hrec; exact ⟨_, by rw [hw]; rfl⟩
          · exact hok hne rec hrec
        · intro out hout
          rcases hacc out hout with hacc1 | ⟨rec, hrecmem, hh, hres⟩
          · subst hacc1
            refine Or.inr ⟨_, List.mem_append_left _ (List.mem_singleton.mpr rfl), ch.2, ?_⟩
            rw [hw]; rfl
          · exact Or.inr ⟨rec, List.mem_append_right _ hrecmem, hh, hres⟩

/-- A call that passed a history is not a drafting call. -/
theorem isDraftCall_false {r : CallRecord} (h' : History)
    (h : r.historyIn = some h') : isDraftCall r = false := by
  cases r with
  | mk ag p d hi res => cases ag <;> simp_all [isDraftCall]

/-! Specification lemma for the section-by-section generation loop:
trace extension, exactly one drafting call per section in order, and the
shape of the assembled document on success. -/

theorem sections_loop_spec (env : Env) (deps : Deps) (topic : String) (docs : List String) :
    ∀ sections fuel st acc st2 r,
    sections_loop env deps topic docs sections fuel st acc = (st2, r) →
    ∃ new, st2.trace = st.trace ++ new
      ∧ (∀ rec ∈ new, rec.deps = deps ∧ rec.agent = AgentKind.writer
          ∧ ∃ sec, sec ∈ sections ∧
            ((rec.historyIn = none ∧ rec.prompt = sectionDraftPrompt sec.title topic docs)
             ∨ ∃ fb h, rec.historyIn = some h ∧ rec.prompt = sectionRevisePrompt sec.title fb))
      ∧ List.Chain' linked new
      ∧ (∀ rec ∈ new.head?, rec.historyIn = none)
      ∧ ((∀ e, r ≠ Except.error (RunError.collab e)) → ∀ rec ∈ new, ∃ x, rec.result = Except.ok x)
      ∧ (∀ doc, r = Except.ok doc →
          (new.filter isDraftCall).map CallRecord.prompt
              = sections.map (fun sec => sectionDraftPrompt sec.title topic docs)
          ∧ ∃ contents, contents.length = sections.length
            ∧ doc = acc ++ concatList (List.zipWith sectionBlock
                (sections.map ReportSection.title) contents)
            ∧ ∀ c ∈ contents, ∃ rec ∈ new, ∃ h,
                rec.result = Except.ok (CallData.textData c, h)) := by
  intro sections
  induction sections with
  | nil =>
    intro fuel st acc st2 r h
    simp only [sections_loop] at h
    injection h with h1 h2
    subst h1; subst h2
    refine ⟨[], by simp, by simp, by simp, by simp, by simp, ?_⟩
    intro doc hdoc
    injection hdoc with h3
    subst h3
    refine ⟨rfl, [], rfl, (String.append_empty acc).symm, ?_⟩
    intro c hc
    exact absurd hc (List.not_mem_nil c)
  | cons sec rest ih =>
    intro fuel st acc st2 r h
    simp only [sections_loop] at h
    cases hw : env.writer_run (writerCount st.trace) with
    | error e =>
      rw [hw] at h
      injection h with h1 h2
      subst h1; subst h2
      refine ⟨_, rfl, ?_, List.chain'_singleton _, ?_, ?_, ?_⟩
      · intro rec hrec
        simp only [logWriter_trace, List.mem_singleton] at hrec
        subst hrec
        exact ⟨rfl, rfl, sec, List.mem_cons_self sec rest, Or.inl ⟨rfl, rfl⟩⟩
      · intro rec hrec
        simp only [logWriter_trace, List.head?_cons, Option.mem_def,
          Option.some.injEq] at hrec
        subst hrec; rfl
      · intro hne; exact absurd rfl (hne e)
      · intro doc hdoc
        exact Except.noConfusion hdoc
    | ok ch =>
      rw [hw] at h
      have h' : (match section_loop env deps sec.title fuel
          (logWriter env st (sectionDraftPrompt sec.title topic docs) deps none)
          ch.1 ch.2 with
        | (st4, Except.error e) => (st4, Except.error e)
        | (st4, Except.ok accepted) =>
          sections_loop env deps topic docs rest fuel st4
            (acc ++ sectionBlock sec.title accepted)) = (st2, r) := h
      clear h
      cases hsl : section_loop env deps sec.title fuel
          (logWriter env st (sectionDraftPrompt sec.title topic docs) deps none)
          ch.1 ch.2 with
      | mk st3 r3 =>
        rw [hsl] at h'
        rename' h' => h
        obtain ⟨new2, htr2, hmem2, hchain2, hhead2, hok2, hacc2⟩ :=
          section_loop_spec env deps sec.title _ _ _ _ _ _ hsl
        simp only [logWriter_trace, List.append_assoc] at htr2
        cases r3 with
        | error e3 =>
          injection h with h1 h2
          subst h1; subst h2
          refine ⟨_, by rw [htr2], ?_, ?_, ?_, ?_, ?_⟩
          · intro rec hrec
            simp only [List.mem_append, List.mem_singleton] at hrec
            rcases hrec with hrec | hrec
            · subst hrec
              exact ⟨rfl, rfl, sec, List.mem_cons_self sec rest, Or.inl ⟨rfl, rfl⟩⟩
            · obtain ⟨hd, hag, fb, hh, hhi, hp⟩ := hmem2 rec hrec
              exact ⟨hd, hag, sec, List.mem_cons_self sec rest, Or.inr ⟨fb, hh, hhi, hp⟩⟩
          · refine List.chain'_cons'.mpr ⟨?_, hchain2⟩
            intro y hy hh hsome
            have hy2 := hhead2 y hy
            rw [hy2] at hsome
            simp only [Option.some.injEq] at hsome
            subst hsome
            refine ⟨(hmem2 y (List.mem_of_mem_head? hy)).2.1, ⟨CallData.textData ch.1, ?_⟩⟩
            rw [hw]; rfl
          · intro rec hrec
            simp only [List.singleton_append, List.head?_cons, Option.mem_def,
              Option.some.injEq] at hrec
            subst hrec; rfl
          · intro hne rec hrec
            simp only [List.mem_append, List.mem_singleton] at hrec
            rcases hrec with hrec | hrec
            · subst hrec; exact ⟨_, by rw [hw]; rfl⟩
            · exact hok2 hne rec hrec
          · intro doc hdoc
            exact Except.noConfusion hdoc
        | ok accepted =>
          obtain ⟨new3, htr3, hmem3, hchain3, hhead3, hok3, hlast3⟩ := ih _ _ _ _ _ h
          rw [htr2] at htr3
          refine ⟨_, by rw [htr3]; simp only [List.append_assoc,
            List.singleton_append, List.cons_append, List.nil_append]; rfl, ?_, ?_, ?_, ?_, ?_⟩
          · intro rec hrec
            simp only [List.mem_cons, List.mem_append] at hrec
            rcases hrec with hrec | hrec | hrec
            · subst hrec
              exact ⟨rfl, rfl, sec, List.mem_cons_self sec rest, Or.inl ⟨rfl, rfl⟩⟩
            · obtain ⟨hd, hag, fb, hh, hhi, hp⟩ := hmem2 rec hrec
              exact ⟨hd, hag, sec, List.mem_cons_self sec rest, Or.inr ⟨fb, hh, hhi, hp⟩⟩
            · obtain ⟨hd, hag, sec2, hsec2, hrest⟩ := hmem3 rec hrec
              exact ⟨hd, hag, sec2, List.mem_cons_of_mem sec hsec2, hrest⟩
          · refine List.chain'_cons'.mpr ⟨?_, List.chain'_append.mpr ⟨hchain2, hchain3, ?_⟩⟩
            · intro y hy hh hsome
              cases hn2 : new2 with
              | nil =>
                subst hn2
                simp only [List.nil_append] at hy
                rw [hhead3 y hy] at hsome
                exact Option.noConfusion hsome
              | cons a t =>
                subst hn2
                simp only [List.cons_append, List.head?_cons, Option.mem_def,
                  Option.some.injEq] at hy
                subst hy
                have ha2 := hhead2 a (by simp)
                rw [ha2] at hsome
                simp only [Option.some.injEq] at hsome
                subst hsome
                refine ⟨(hmem2 a (by simp)).2.1, ⟨CallData.textData ch.1, ?_⟩⟩
                rw [hw]; rfl
            · intro x hx y hy hh hsome
              rw [hhead3 y hy] at hsome
              exact Option.noConfusion hsome
          · intro rec hrec
            simp only [List.head?_cons, Option.mem_def, Option.some.injEq] at hrec
            subst hrec; rfl
          · intro hne rec hrec
            simp only [List.mem_cons, List.mem_append] at hrec
            rcases hrec with hrec | hrec | hrec
            · subst hrec; exact ⟨_, by rw [hw]; rfl⟩
            · exact hok2 (fun e3 he3 => Except.noConfusion he3) rec hrec
            · exact hok3 hne rec hrec
          · intro doc hdoc
            obtain ⟨hmap3, contents3, hlen3, hdoc3, hcmem3⟩ := hlast3 doc hdoc
            constructor
            · rw [List.filter_cons_of_pos rfl, List.filter_append]
              have hf2 : new2.filter isDraftCall = [] := by
                refine List.filter_eq_nil_iff.mpr ?_
                intro a hamem
                obtain ⟨_, _, fb, hh, hhi, _⟩ := hmem2 a hamem
                simp [isDraftCall_false hh hhi]
              rw [hf2]
              simp only [List.nil_append, List.map_cons, hmap3]
            · refine ⟨accepted :: contents3, by simp [hlen3], ?_, ?_⟩
              · rw [hdoc3]
                simp only [List.map_cons, List.zipWith_cons_cons]
                rw [String.append_assoc]
                rfl
              · intro c hc
                rcases List.mem_cons.mp hc with hc1 | hc2
                · subst hc1
                  rcases hacc2 c rfl with hacc1 | ⟨rec, hrecmem, hh, hres⟩
                  · subst hacc1
                    refine ⟨_, List.mem_cons_self _ _, ch.2, ?_⟩
                    rw [hw]; rfl
                  · exact ⟨rec, List.mem_cons_of_mem _ (List.mem_append_left _ hrecmem),
                      hh, hres⟩
                · obtain ⟨rec, hrecmem, hh, hres⟩ := hcmem3 c hc2
                  exact ⟨rec, List.mem_cons_of_mem _ (List.mem_append_right _ hrecmem),
                    hh, hres⟩

/-! Step lemmas: single unfoldings of the loops under known oracle
responses and decisions. -/

/-- Accepting a section candidate ends its sub-loop with that candidate. -/
theorem section_loop_accept (env : Env) (deps : Deps) (title : String)
    (fuel : Nat) (st : RunState) (content : String) (hist : History)
    (ha : env.ask st.askN = "accept") :
    section_loop env deps title (fuel + 1) st content hist
      = (bumpAsk st, Except.ok content) := by
  simp only [section_loop]
  rw [if_pos ha]

/-- A revise decision followed by a successful revision call recurses with
the new candidate and its history. -/
theorem section_loop_revise_step (env : Env) (deps : Deps) (title : String)
    (fuel : Nat) (st : RunState) (content : String) (hist : History)
    (c2 : String) (h2 : History)
    (hne : ¬ env.ask st.askN = "accept")
    (hw : env.writer_run (writerCount st.trace) = Except.ok (c2, h2)) :
    section_loop env deps title (fuel + 1) st content hist
      = section_loop env deps title fuel
          (logWriter env (bumpFeed (bumpAsk st))
            (sectionRevisePrompt title (env.feedback st.feedN)) deps (some hist))
          c2 h2 := by
  simp only [section_loop]
  rw [if_neg hne]
  simp only [bumpFeed_trace, bumpAsk_trace]
  rw [hw]

/-- Unfolding of `sections_loop` at a section whose drafting call
succeeds. -/
theorem sections_loop_cons_ok (env : Env) (deps : Deps) (topic : String)
    (docs : List String) (sec : ReportSection) (rest : List ReportSection)
    (fuel : Nat) (st : RunState) (acc : String) (c : String) (h : History)
    (hw : env.writer_run (writerCount st.trace) = Except.ok (c, h)) :
    sections_loop env deps topic docs (sec :: rest) fuel st acc
      = match section_loop env deps sec.title fuel
          (logWriter env st (sectionDraftPrompt sec.title topic docs) deps none) c h with
        | (st4, Except.error e) => (st4, Except.error e)
        | (st4, Except.ok accepted) =>
          sections_loop env deps topic docs rest fuel st4
            (acc ++ sectionBlock sec.title accepted) := by
  simp only [sections_loop]
  rw [hw]

/-- The section sub-loop under `k` revise decisions followed by an accept:
it terminates exactly at the accept, returning the candidate produced by
the last revision call (or the initial candidate when `k = 0`). -/
theorem section_loop_accepts (env : Env) (deps : Deps) (title : String) :
    ∀ k fuel st (content : String) (hist : History)
      (cs : Nat → String) (hs : Nat → History),
    (∀ i, i < k → env.writer_run (writerCount st.trace + i) = Except.ok (cs i, hs i)) →
    (∀ i, i < k → env.ask (st.askN + i) = "revise") →
    env.ask (st.askN + k) = "accept" →
    k + 1 ≤ fuel →
    ∃ st2, section_loop env deps title fuel st content hist
        = (st2, Except.ok (if k = 0 then content else cs (k - 1)))
      ∧ st2.askN = st.askN + k + 1 ∧ st2.feedN = st.feedN + k := by
  intro k
  induction k with
  | zero =>
    intro fuel st content hist cs hs hresp hask haccept hfuel
    cases fuel with
    | zero => omega
    | succ f =>
      rw [section_loop_accept env deps title f st content hist
        (by simpa using haccept)]
      exact ⟨bumpAsk st, by simp, by simp, by simp⟩
  | succ k ih =>
    intro fuel st content hist cs hs hresp hask haccept hfuel
    cases fuel with
    | zero => omega
    | succ f =>
      have hask0 : env.ask st.askN = "revise" := by
        simpa using hask 0 (by omega)
      have hresp0 : env.writer_run (writerCount st.trace) = Except.ok (cs 0, hs 0) := by
        simpa using hresp 0 (by omega)
      rw [section_loop_revise_step env deps title f st content hist (cs 0) (hs 0)
        (by simp [hask0]) hresp0]
      obtain ⟨st2, heq, hst2a, hst2f⟩ := ih f
        (logWriter env (bumpFeed (bumpAsk st))
          (sectionRevisePrompt title (env.feedback st.feedN)) deps (some hist))
        (cs 0) (hs 0) (fun i => cs (i + 1)) (fun i => hs (i + 1))
        (by
          intro i hi
          have harith : writerCount st.trace + (i + 1)
              = writerCount ((logWriter env (bumpFeed (bumpAsk st))
                (sectionRevisePrompt title (env.feedback st.feedN)) deps
                  (some hist)).trace) + i := by
            simp only [logWriter_trace, bumpFeed_trace, bumpAsk_trace,
              writerCount_append, writerCount_cons, writerCount_nil]
            simp
            omega
          rw [← harith]
          exact hresp (i + 1) (by omega))
        (by
          intro i hi
          have := hask (i + 1) (by omega)
          simp only [logWriter_askN, bumpFeed_askN, bumpAsk_askN]
          rw [show st.askN + 1 + i = st.askN + (i + 1) by omega]
          exact this)
        (by
          simp only [logWriter_askN, bumpFeed_askN, bumpAsk_askN]
          rw [show st.askN + 1 + k = st.askN + (k + 1) by omega]
          exact haccept)
        (by omega)
      rw [heq]
      have hval : (if k = 0 then cs 0 else cs (k - 1 + 1))
          = (if k + 1 = 0 then content else cs (k + 1 - 1)) := by
        rcases Nat.eq_zero_or_pos k with hk | hk
        · subst hk; simp
        · rw [if_neg (by omega), if_neg (by omega)]
          congr 1
          omega
      refine ⟨st2, by rw [hval], ?_, ?_⟩
      · simp only [logWriter_askN, bumpFeed_askN, bumpAsk_askN] at hst2a
        omega
      · simp only [logWriter_feedN, bumpFeed_feedN, bumpAsk_feedN] at hst2f
        omega

/-- Processing one section under `k` revise decisions followed by an
accept: the loop moves on to the remaining sections having appended
exactly the block for the last candidate, with the decision stream
advanced past the accept. -/
theorem sections_loop_first_section (env : Env) (deps : Deps) (topic : String)
    (docs : List String) (sec : ReportSection) (rest : List ReportSection)
    (k fuel : Nat) (st : RunState) (acc : String)
    (cs : Nat → String) (hs : Nat → History)
    (hresp : ∀ i, i ≤ k → env.writer_run (writerCount st.trace + i) = Except.ok (cs i, hs i))
    (hask : ∀ i, i < k → env.ask (st.askN + i) = "revise")
    (haccept : env.ask (st.askN + k) = "accept")
    (hfuel : k + 1 ≤ fuel) :
    ∃ st2, sections_loop env deps topic docs (sec :: rest) fuel st acc
        = sections_loop env deps topic docs rest fuel st2
            (acc ++ sectionBlock sec.title (cs k))
      ∧ st2.askN = st.askN + k + 1 := by
  have hresp0 : env.writer_run (writerCount st.trace) = Except.ok (cs 0, hs 0) := by
    simpa using hresp 0 (by omega)
  rw [sections_loop_cons_ok env deps topic docs sec rest fuel st acc (cs 0) (hs 0) hresp0]
  obtain ⟨st3, heq, hst3a, hst3f⟩ := section_loop_accepts env deps sec.title k fuel
    (logWriter env st (sectionDraftPrompt sec.title topic docs) deps none)
    (cs 0) (hs 0) (fun i => cs (i + 1)) (fun i => hs (i + 1))
    (by
      intro i hi
      have harith : writerCount ((logWriter env st
          (sectionDraftPrompt sec.title topic docs) deps none).trace) + i
          = writerCount st.trace + (i + 1) := by
        simp only [logWriter_trace, writerCount_append, writerCount_cons, writerCount_nil]
        simp
        omega
      rw [harith]
      exact hresp (i + 1) (by omega))
    (by
      intro i hi
      simpa using hask i hi)
    (by simpa using haccept)
    hfuel
  have hval : (if k = 0 then cs 0 else cs (k - 1 + 1)) = cs k := by
    rcases Nat.eq_zero_or_pos k with hk | hk
    · subst hk; simp
    · rw [if_neg (by omega)]
      congr 1
      omega
  rw [hval] at heq
  rw [heq]
  refine ⟨st3, rfl, ?_⟩
  simpa using hst3a

/-- Unfolding of the structure loop when the first proposal is accepted. -/
theorem structure_loop_first_accept (env : Env) (deps : Deps) (topic : String)
    (mh : Option History) (fuel : Nat) (st : RunState)
    (s0 : ReportStructure) (h0 : History)
    (hc : env.delegation_run (delegCount st.trace) = Except.ok (s0, h0))
    (ha : env.ask st.askN = "accept") :
    structure_loop env deps topic mh (fuel + 1) st
      = (bumpAsk (logDeleg env st (structRequestPrompt topic) deps mh), Except.ok s0) := by
  simp only [structure_loop]
  rw [hc]
  simp only [logDeleg_askN]
  rw [if_pos ha]

/-- Unfolding of the structure loop when both the first proposal and the
revised proposal are rejected: the `while True` loop starts a fresh round
from the same `message_history` value. -/
theorem structure_loop_modify_modify (env : Env) (deps : Deps) (topic : String)
    (mh : Option History) (fuel : Nat) (st : RunState)
    (s0 : ReportStructure) (h0 : History) (s1 : ReportStructure) (h1 : History)
    (hc : env.delegation_run (delegCount st.trace) = Except.ok (s0, h0))
    (hc2 : env.delegation_run (delegCount st.trace + 1) = Except.ok (s1, h1))
    (ha : ¬ env.ask st.askN = "accept")
    (ha2 : ¬ env.ask (st.askN + 1) = "accept") :
    structure_loop env deps topic mh (fuel + 1) st
      = structure_loop env deps topic mh fuel
          (bumpAsk (logDeleg env
            (bumpFeed (bumpAsk (logDeleg env st (structRequestPrompt topic) deps mh)))
            (structRevisePrompt (env.feedback st.feedN) s0) deps (some h0))) := by
  simp only [structure_loop]
  rw [hc]
  simp only [logDeleg_askN]
  rw [if_neg ha]
  simp only [logDeleg_feedN, bumpAsk_askN, bumpFeed_trace, bumpAsk_trace,
    logDeleg_trace, delegCount_append, delegCount_cons, delegCount_nil,
    bumpFeed_feedN, bumpFeed_askN, logDeleg_askN, if_true, add_zero]
  rw [hc2]
  simp only [if_neg ha2]

/-- `generate_report` when the structure loop fails: the failure is the
whole run's result. -/
theorem generate_report_structure_error (env : Env) (fuel : Nat)
    (docs : List String) (topic : String) (ctx : Option String)
    (stS : RunState) (e : RunError)
    (hS : structure_loop env ⟨docs, topic, ctx⟩ topic none fuel initState
      = (stS, Except.error e)) :
    generate_report env fuel docs topic ctx = (stS, Except.error e) := by
  simp only [generate_report]
  rw [hS]

/-- `generate_report` when the structure loop accepts `fs`: the rest of
the run is the section loop over `fs.sections`. -/
theorem generate_report_def (env : Env) (fuel : Nat)
    (docs : List String) (topic : String) (ctx : Option String)
    (stS : RunState) (fs : ReportStructure)
    (hS : structure_loop env ⟨docs, topic, ctx⟩ topic none fuel initState
      = (stS, Except.ok fs)) :
    generate_report env fuel docs topic ctx
      = match sections_loop env ⟨docs, topic, ctx⟩ topic docs fs.sections fuel stS "" with
        | (st2, Except.error e) => (st2, Except.error e)
        | (st2, Except.ok complete_report) => (st2, Except.ok ⟨fs, complete_report⟩) := by
  simp only [generate_report]
  rw [hS]

/-- Decomposition: the trace of a whole run extends the trace left by the
structure negotiation loop. -/
theorem generate_report_trace_ext (env : Env) (fuel : Nat) (docs : List String)
    (topic : String) (ctx : Option String) (stS : RunState)
    (rS : Except RunError ReportStructure)
    (hS : structure_loop env ⟨docs, topic, ctx⟩ topic none fuel initState = (stS, rS)) :
    ∃ tail, (generate_report env fuel docs topic ctx).1.trace = stS.trace ++ tail := by
  cases rS with
  | error e =>
    rw [generate_report_structure_error env fuel docs topic ctx stS e hS]
    exact ⟨[], by simp⟩
  | ok fs =>
    rw [generate_report_def env fuel docs topic ctx stS fs hS]
    cases hsec : sections_loop env ⟨docs, topic, ctx⟩ topic docs fs.sections fuel stS "" with
    | mk st2 r2 =>
      obtain ⟨new2, htr2, _, _, _, _, _⟩ := sections_loop_spec env ⟨docs, topic, ctx⟩
        topic docs fs.sections fuel stS "" st2 r2 hsec
      cases r2 with
      | error e => exact ⟨new2, htr2⟩
      | ok doc => exact ⟨new2, htr2⟩

/-- Decomposition of a successful run into an accepted structure and a
successful section pass over its sections. -/
theorem generate_report_ok (env : Env) (fuel : Nat) (docs : List String)
    (topic : String) (ctx : Option String) (st : RunState) (rc : ReportContent)
    (h : generate_report env fuel docs topic ctx = (st, Except.ok rc)) :
    ∃ stS, structure_loop env ⟨docs, topic, ctx⟩ topic none fuel initState
        = (stS, Except.ok rc.«structure»)
      ∧ sections_loop env ⟨docs, topic, ctx⟩ topic docs rc.«structure».sections fuel stS ""
        = (st, Except.ok rc.content) := by
  cases hS : structure_loop env ⟨docs, topic, ctx⟩ topic none fuel initState with
  | mk stS rS =>
    cases rS with
    | error e =>
      rw [generate_report_structure_error env fuel docs topic ctx stS e hS] at h
      exact absurd h (by simp)
    | ok fs =>
      rw [generate_report_def env fuel docs topic ctx stS fs hS] at h
      cases hsec : sections_loop env ⟨docs, topic, ctx⟩ topic docs fs.sections fuel stS "" with
      | mk st2 r2 =>
        rw [hsec] at h
        cases r2 with
        | error e => exact absurd h (by simp)
        | ok doc =>
          injection h with h1 h2
          injection h2 with h3
          subst h1
          subst h3
          exact ⟨stS, rfl, hsec⟩

/-- A delegation-agent call is never a drafting call. -/
theorem isDraftCall_false_deleg {r : CallRecord}
    (h : r.agent = AgentKind.delegation) : isDraftCall r = false := by
  cases r with
  | mk ag p d hi res =>
    cases hi <;> simp_all [isDraftCall]

/-- A drafting call carries no history and addresses the writer agent. -/
theorem isDraftCall_elim {r : CallRecord} (h : isDraftCall r = true) :
    r.agent = AgentKind.writer ∧ r.historyIn = none := by
  cases r with
  | mk ag p d hi res =>
    cases ag <;> cases hi <;> simp_all [isDraftCall]

/-- C2: In every run, a collaborator call that passes a conversation
history receives exactly the history returned by the immediately preceding
collaborator call, which belongs to the same agent and hence to the same
negotiation thread (threads are contiguous in the trace: the structure
thread first, then each section's thread in order, each opened by a
history-free call).  Together with the fact that every thread-opening call
passes no history (`historyIn = none`, including the very first call of the
run), this states that history accumulates within a thread and never leaks
across sections or across the structure/section boundary. -/
theorem history_threading (env : Env) (fuel : Nat) (docs : List String)
    (topic : String) (ctx : Option String) :
    List.Chain' linked (generate_report env fuel docs topic ctx).1.trace
    ∧ ∀ rec ∈ (generate_report env fuel docs topic ctx).1.trace.head?,
        rec.historyIn = none := by
  cases hS : structure_loop env ⟨docs, topic, ctx⟩ topic none fuel initState with
  | mk stS rS =>
    obtain ⟨new1, htr1, hmem1, hchain1, hhead1, _, _⟩ :=
      structure_loop_spec env ⟨docs, topic, ctx⟩ topic fuel initState stS rS hS
    have hstS : stS.trace = new1 := by simpa using htr1
    cases rS with
    | error e =>
      rw [generate_report_structure_error env fuel docs topic ctx stS e hS]
      refine ⟨?_, ?_⟩
      · rw [hstS]; exact hchain1
      · rw [hstS]; exact hhead1
    | ok fs =>
      rw [generate_report_def env fuel docs topic ctx stS fs hS]
      cases hsec : sections_loop env ⟨docs, topic, ctx⟩ topic docs fs.sections fuel stS "" with
      | mk st2 r2 =>
        obtain ⟨new2, htr2, hmem2, hchain2, hhead2, _, _⟩ :=
          sections_loop_spec env ⟨docs, topic, ctx⟩ topic docs fs.sections fuel stS ""
            st2 r2 hsec
        have htrace : st2.trace = new1 ++ new2 := by rw [htr2, hstS]
        have hchain : List.Chain' linked st2.trace := by
          rw [htrace]
          refine List.chain'_append.mpr ⟨hchain1, hchain2, ?_⟩
          intro x hx y hy hh hsome
          rw [hhead2 y hy] at hsome
          exact Option.noConfusion hsome
        have hhead : ∀ rec ∈ st2.trace.head?, rec.historyIn = none := by
          rw [htrace]
          cases hn1 : new1 with
          | nil =>
            intro rec hrec
            simp only [List.nil_append] at hrec
            exact hhead2 rec hrec
          | cons a t =>
            intro rec hrec
            simp only [List.cons_append, List.head?_cons, Option.mem_def,
              Option.some.injEq] at hrec
            subst hrec
            exact hhead1 a (by rw [hn1]; simp)
        cases r2 with
        | error e => exact ⟨hchain, hhead⟩
        | ok doc => exact ⟨hchain, hhead⟩

/-- C6: `Deps` — including `SourceDocuments` and `Topic` — is passed
unchanged into every collaborator call of the run, and the prompt of every
structure-request call embeds the unchanged topic while the prompt of every
drafting call embeds the unchanged topic and source-document list. -/
theorem context_passed_unchanged (env : Env) (fuel : Nat) (docs : List String)
    (topic : String) (ctx : Option String) :
    ∀ rec ∈ (generate_report env fuel docs topic ctx).1.trace,
      rec.deps = ⟨docs, topic, ctx⟩
      ∧ (rec.agent = AgentKind.delegation → rec.historyIn = none →
          rec.prompt = structRequestPrompt topic)
      ∧ (rec.agent = AgentKind.writer → rec.historyIn = none →
          ∃ title, rec.prompt = sectionDraftPrompt title topic docs) := by
  cases hS : structure_loop env ⟨docs, topic, ctx⟩ topic none fuel initState with
  | mk stS rS =>
    obtain ⟨new1, htr1, hmem1, _, _, _, _⟩ :=
      structure_loop_spec env ⟨docs, topic, ctx⟩ topic fuel initState stS rS hS
    have hstS : stS.trace = new1 := by simpa using htr1
    obtain ⟨tail, htail⟩ := generate_report_trace_ext env fuel docs topic ctx stS rS hS
    have hdeleg : ∀ rec ∈ new1, rec.deps = ⟨docs, topic, ctx⟩
        ∧ (rec.agent = AgentKind.delegation → rec.historyIn = none →
            rec.prompt = structRequestPrompt topic)
        ∧ (rec.agent = AgentKind.writer → rec.historyIn = none →
            ∃ title, rec.prompt = sectionDraftPrompt title topic docs) := by
      intro rec hrec
      obtain ⟨hd, hag, hdis⟩ := hmem1 rec hrec
      refine ⟨hd, ?_, ?_⟩
      · intro _ hnone
        rcases hdis with ⟨_, hp⟩ | ⟨fb, sx, hh, hsome, hp⟩
        · exact hp
        · rw [hsome] at hnone; exact Option.noConfusion hnone
      · intro hwr _
        rw [hag] at hwr
        exact absurd hwr (by simp)
    -- writer-side records
    cases rS with
    | error e =>
      rw [generate_report_structure_error env fuel docs topic ctx stS e hS]
      intro rec hrec
      rw [hstS] at hrec
      exact hdeleg rec hrec
    | ok fs =>
      rw [generate_report_def env fuel docs topic ctx stS fs hS]
      cases hsec : sections_loop env ⟨docs, topic, ctx⟩ topic docs fs.sections fuel stS "" with
      | mk st2 r2 =>
        obtain ⟨new2, htr2, hmem2, _, _, _, _⟩ :=
          sections_loop_spec env ⟨docs, topic, ctx⟩ topic docs fs.sections fuel stS ""
            st2 r2 hsec
        have hwriter : ∀ rec ∈ new2, rec.deps = ⟨docs, topic, ctx⟩
            ∧ (rec.agent = AgentKind.delegation → rec.historyIn = none →
                rec.prompt = structRequestPrompt topic)
            ∧ (rec.agent = AgentKind.writer → rec.historyIn = none →
                ∃ title, rec.prompt = sectionDraftPrompt title topic docs) := by
          intro rec hrec
          obtain ⟨hd, hag, sec, hsecmem, hdis⟩ := hmem2 rec hrec
          refine ⟨hd, ?_, ?_⟩
          · intro hde _
            rw [hag] at hde
            exact absurd hde (by simp)
          · intro _ hnone
            rcases hdis with ⟨_, hp⟩ | ⟨fb, hh, hsome, hp⟩
            · exact ⟨sec.title, hp⟩
            · rw [hsome] at hnone; exact Option.noConfusion hnone
        have hall : ∀ rec ∈ st2.trace, rec.deps = ⟨docs, topic, ctx⟩
            ∧ (rec.agent = AgentKind.delegation → rec.historyIn = none →
                rec.prompt = structRequestPrompt topic)
            ∧ (rec.agent = AgentKind.writer → rec.historyIn = none →
                ∃ title, rec.prompt = sectionDraftPrompt title topic docs) := by
          intro rec hrec
          rw [htr2, hstS] at hrec
          rcases List.mem_append.mp hrec with hrec | hrec
          · exact hdeleg rec hrec
          · exact hwriter rec hrec
        cases r2 with
        | error e => exact hall
        | ok doc => exact hall

@[simp] theorem initState_trace : initState.trace = [] := rfl
@[simp] theorem initState_askN : initState.askN = 0 := rfl
@[simp] theorem initState_feedN : initState.feedN = 0 := rfl

/-- A fixed small accepted structure used by the concrete environments
below. -/
def sEmpty : ReportStructure := ⟨"T", [], none⟩

/-- Environment in which the first two structure decisions are `modify`
and every later decision is `accept`; all collaborator calls succeed and
the proposed structure has no sections. -/
def envC1 : Env :=
  ⟨fun _ => Except.ok (sEmpty, ["m"]),
   fun _ => Except.ok ("c", ["w"]),
   fun n => if n < 2 then "modify" else "accept",
   fun _ => "please change it"⟩

/-- C1 counterexample: in the concrete run `envC1` the first two decisions
are both `modify`, the run still terminates normally, and the delegation
agent is called three times — i.e. a further collaborator call *is* made
after the second `modify` decision, contradicting the claim that the loop
terminates with no third round. -/
theorem second_modify_no_third_round_counterexample :
    envC1.ask 0 = "modify" ∧ envC1.ask 1 = "modify"
    ∧ (generate_report envC1 3 [] "t" none).2 = Except.ok ⟨sEmpty, ""⟩
    ∧ ¬ delegCount (generate_report envC1 3 [] "t" none).1.trace ≤ 2
    ∧ delegCount (generate_report envC1 3 [] "t" none).1.trace = 3 :=
  ⟨rfl, rfl, rfl, by decide, by decide⟩

/-- C1 (amended): when the first two decisions of the structure
negotiation loop are both `modify` (and both collaborator calls succeed),
the loop does *not* terminate: a third delegation-agent call is made (the
`while True` loop starts a fresh round). -/
theorem second_modify_starts_third_round (env : Env) (fuel : Nat)
    (docs : List String) (topic : String) (ctx : Option String)
    (s0 s1 : ReportStructure) (h0 h1 : History)
    (hc : env.delegation_run 0 = Except.ok (s0, h0))
    (hc2 : env.delegation_run 1 = Except.ok (s1, h1))
    (ha : env.ask 0 = "modify") (ha2 : env.ask 1 = "modify")
    (hfuel : 2 ≤ fuel) :
    3 ≤ delegCount (generate_report env fuel docs topic ctx).1.trace := by
  obtain ⟨f, rfl⟩ : ∃ f, fuel = f + 2 := ⟨fuel - 2, by omega⟩
  cases hS3 : structure_loop env ⟨docs, topic, ctx⟩ topic none (f + 1)
      (bumpAsk (logDeleg env
        (bumpFeed (bumpAsk (logDeleg env initState (structRequestPrompt topic)
          ⟨docs, topic, ctx⟩ none)))
        (structRevisePrompt (env.feedback initState.feedN) s0)
        ⟨docs, topic, ctx⟩ (some h0))) with
  | mk stS rS =>
    have hS : structure_loop env ⟨docs, topic, ctx⟩ topic none (f + 2) initState
        = (stS, rS) := by
      rw [structure_loop_modify_modify env ⟨docs, topic, ctx⟩ topic none (f + 1)
        initState s0 h0 s1 h1 (by simpa using hc) (by simpa using hc2)
        (by simp [ha]) (by simp [ha2])]
      exact hS3
    obtain ⟨new, htr, _, _, _, _, hfirst⟩ := structure_loop_spec env ⟨docs, topic, ctx⟩
      topic (f + 1) _ stS rS hS3
    obtain ⟨restl, hnew⟩ := hfirst (by omega)
    have hcount : 3 ≤ delegCount stS.trace := by
      rw [htr, hnew]
      simp only [bumpAsk_trace, bumpFeed_trace, logDeleg_trace, initState_trace,
        delegCount_append, delegCount_cons, delegCount_nil, List.nil_append]
      simp only [eq_self_iff_true, if_true]
      omega
    obtain ⟨tail, htail⟩ := generate_report_trace_ext env (f + 2) docs topic ctx
      stS rS hS
    rw [htail, delegCount_append]
    omega

/-- C3: when the first two decisions of the structure negotiation loop are
both `modify`, the loop runs a further round whose collaborator call is the
third call of the run, uses the initial structure-request prompt, and is
issued with `message_history = None` — the conversation history built up by
the first proposal call and the revision call is discarded rather than
threaded into the new round. -/
theorem third_round_discards_history (env : Env) (fuel : Nat)
    (docs : List String) (topic : String) (ctx : Option String)
    (s0 s1 : ReportStructure) (h0 h1 : History)
    (hc : env.delegation_run 0 = Except.ok (s0, h0))
    (hc2 : env.delegation_run 1 = Except.ok (s1, h1))
    (ha : env.ask 0 = "modify") (ha2 : env.ask 1 = "modify")
    (hfuel : 2 ≤ fuel) :
    (((generate_report env fuel docs topic ctx).1.trace)[2]?).map CallRecord.agent
        = some AgentKind.delegation
    ∧ (((generate_report env fuel docs topic ctx).1.trace)[2]?).map CallRecord.prompt
        = some (structRequestPrompt topic)
    ∧ (((generate_report env fuel docs topic ctx).1.trace)[2]?).map CallRecord.historyIn
        = some none := by
  obtain ⟨f, rfl⟩ : ∃ f, fuel = f + 2 := ⟨fuel - 2, by omega⟩
  cases hS3 : structure_loop env ⟨docs, topic, ctx⟩ topic none (f + 1)
      (bumpAsk (logDeleg env
        (bumpFeed (bumpAsk (logDeleg env initState (structRequestPrompt topic)
          ⟨docs, topic, ctx⟩ none)))
        (structRevisePrompt (env.feedback initState.feedN) s0)
        ⟨docs, topic, ctx⟩ (some h0))) with
  | mk stS rS =>
    have hS : structure_loop env ⟨docs, topic, ctx⟩ topic none (f + 2) initState
        = (stS, rS) := by
      rw [structure_loop_modify_modify env ⟨docs, topic, ctx⟩ topic none (f + 1)
        initState s0 h0 s1 h1 (by simpa using hc) (by simpa using hc2)
        (by simp [ha]) (by simp [ha2])]
      exact hS3
    obtain ⟨new, htr, _, _, _, _, hfirst⟩ := structure_loop_spec env ⟨docs, topic, ctx⟩
      topic (f + 1) _ stS rS hS3
    obtain ⟨restl, hnew⟩ := hfirst (by omega)
    have hlen : 2 < stS.trace.length := by
      rw [htr, hnew]
      simp only [bumpAsk_trace, bumpFeed_trace, logDeleg_trace, initState_trace,
        List.nil_append, List.length_append, List.length_cons, List.length_singleton]
      omega
    obtain ⟨tail, htail⟩ := generate_report_trace_ext env (f + 2) docs topic ctx
      stS rS hS
    have hget : ((generate_report env (f + 2) docs topic ctx).1.trace)[2]?
        = (new.head? : Option CallRecord) := by
      rw [htail, List.getElem?_append, if_pos hlen, htr]
      simp only [bumpAsk_trace, bumpFeed_trace, logDeleg_trace, initState_trace,
        List.nil_append, List.singleton_append, List.cons_append,
        List.getElem?_cons_succ]
      exact Eq.symm (List.head?_eq_getElem? new)
    rw [hget, hnew]
    exact ⟨rfl, rfl, rfl⟩

/-- C5: the terminal `ReportContent.content` is the concatenation, in
`structure.sections` order, of one block `"\n\n# <title>\n\n<content>"`
per section, where each content is the payload of a successful writer-agent
call of the run (the accepted candidate), regardless of how many revision
rounds each section took. -/
theorem final_content_concatenates_sections (env : Env) (fuel : Nat)
    (docs : List String) (topic : String) (ctx : Option String)
    (st : RunState) (rc : ReportContent)
    (h : generate_report env fuel docs topic ctx = (st, Except.ok rc)) :
    ∃ contents, contents.length = rc.«structure».sections.length
      ∧ rc.content = concatList (List.zipWith sectionBlock
          (rc.«structure».sections.map ReportSection.title) contents)
      ∧ ∀ c ∈ contents, ∃ rec ∈ st.trace, rec.agent = AgentKind.writer
          ∧ ∃ hst, rec.result = Except.ok (CallData.textData c, hst) := by
  obtain ⟨stS, hS, hsec⟩ := generate_report_ok env fuel docs topic ctx st rc h
  obtain ⟨new2, htr2, hmem2, _, _, _, hlast⟩ := sections_loop_spec env ⟨docs, topic, ctx⟩
    topic docs rc.«structure».sections fuel stS "" st (Except.ok rc.content) hsec
  obtain ⟨hmap, contents, hlen, hdoc, hcmem⟩ := hlast rc.content rfl
  refine ⟨contents, hlen, ?_, ?_⟩
  · rw [hdoc]
    rfl
  · intro c hc
    obtain ⟨rec, hrecmem, hst, hres⟩ := hcmem c hc
    refine ⟨rec, ?_, (hmem2 rec hrecmem).2.1, hst, hres⟩
    rw [htr2]
    exact List.mem_append_right _ hrecmem

/-- C7: in every successful run the drafting prompts — the prompts of the
writer-agent calls made with no history — are exactly
`sectionDraftPrompt <title> <topic> <docs>` for the accepted structure's
section titles, in order; the drafting prompt is therefore a function only
of the section title, the topic and the source documents.  Consequently
(second conjunct) two runs over the same topic and source documents whose
accepted structures list the same sections issue identical drafting
prompts, regardless of how earlier sections' contents were revised or
accepted. -/
theorem draft_prompts_depend_only_on_title_topic_sources :
    (∀ (env : Env) (fuel : Nat) (docs : List String) (topic : String)
        (ctx : Option String) (st : RunState) (rc : ReportContent),
      generate_report env fuel docs topic ctx = (st, Except.ok rc) →
        (st.trace.filter isDraftCall).map CallRecord.prompt
          = rc.«structure».sections.map (fun sec => sectionDraftPrompt sec.title topic docs)
        ∧ ∀ rec ∈ st.trace.filter isDraftCall, rec.historyIn = none)
    ∧ (∀ (env1 env2 : Env) (fuel1 fuel2 : Nat) (docs : List String) (topic : String)
        (ctx1 ctx2 : Option String) (st1 st2 : RunState) (rc1 rc2 : ReportContent),
      generate_report env1 fuel1 docs topic ctx1 = (st1, Except.ok rc1) →
      generate_report env2 fuel2 docs topic ctx2 = (st2, Except.ok rc2) →
      rc1.«structure».sections = rc2.«structure».sections →
        (st1.trace.filter isDraftCall).map CallRecord.prompt
          = (st2.trace.filter isDraftCall).map CallRecord.prompt) := by
  have part1 : ∀ (env : Env) (fuel : Nat) (docs : List String) (topic : String)
      (ctx : Option String) (st : RunState) (rc : ReportContent),
      generate_report env fuel docs topic ctx = (st, Except.ok rc) →
        (st.trace.filter isDraftCall).map CallRecord.prompt
          = rc.«structure».sections.map (fun sec => sectionDraftPrompt sec.title topic docs)
        ∧ ∀ rec ∈ st.trace.filter isDraftCall, rec.historyIn = none := by
    intro env fuel docs topic ctx st rc h
    obtain ⟨stS, hS, hsec⟩ := generate_report_ok env fuel docs topic ctx st rc h
    obtain ⟨new1, htr1, hmem1, _, _, _, _⟩ := structure_loop_spec env ⟨docs, topic, ctx⟩
      topic fuel initState stS (Except.ok rc.«structure») hS
    have hstS : stS.trace = new1 := by simpa using htr1
    obtain ⟨new2, htr2, hmem2, _, _, _, hlast⟩ := sections_loop_spec env ⟨docs, topic, ctx⟩
      topic docs rc.«structure».sections fuel stS "" st (Except.ok rc.content) hsec
    obtain ⟨hmap, _⟩ := hlast rc.content rfl
    have hfilter1 : new1.filter isDraftCall = [] := by
      refine List.filter_eq_nil_iff.mpr ?_
      intro a ha
      simp [isDraftCall_false_deleg (hmem1 a ha).2.1]
    have htrace : st.trace = new1 ++ new2 := by rw [htr2, hstS]
    constructor
    · rw [htrace, List.filter_append, hfilter1, List.nil_append, hmap]
    · intro rec hrec
      exact (isDraftCall_elim (List.of_mem_filter hrec)).2
  refine ⟨part1, ?_⟩
  intro env1 env2 fuel1 fuel2 docs topic ctx1 ctx2 st1 st2 rc1 rc2 h1 h2 hsame
  rw [(part1 env1 fuel1 docs topic ctx1 st1 rc1 h1).1,
    (part1 env2 fuel2 docs topic ctx2 st2 rc2 h2).1, hsame]

/-- C8: in every successful run, only top-level sections are drafted and
rendered: every writer-agent call's prompt is the drafting or revision
prompt of some top-level section of the accepted structure (no call is ever
made for a subsection), the number of drafting calls equals the number of
top-level sections, and the assembled document consists of one block per
top-level section title — subsection titles and contents are never
drafted or rendered, even when `subsections` lists are non-empty. -/
theorem subsections_not_drafted_or_rendered (env : Env) (fuel : Nat)
    (docs : List String) (topic : String) (ctx : Option String)
    (st : RunState) (rc : ReportContent)
    (h : generate_report env fuel docs topic ctx = (st, Except.ok rc)) :
    (∀ rec ∈ st.trace, rec.agent = AgentKind.writer →
      ∃ sec ∈ rc.«structure».sections,
        rec.prompt = sectionDraftPrompt sec.title topic docs
        ∨ ∃ fb, rec.prompt = sectionRevisePrompt sec.title fb)
    ∧ (st.trace.filter isDraftCall).length = rc.«structure».sections.length
    ∧ ∃ contents, contents.length = rc.«structure».sections.length
        ∧ rc.content = concatList (List.zipWith sectionBlock
            (rc.«structure».sections.map ReportSection.title) contents) := by
  obtain ⟨stS, hS, hsec⟩ := generate_report_ok env fuel docs topic ctx st rc h
  obtain ⟨new1, htr1, hmem1, _, _, _, _⟩ := structure_loop_spec env ⟨docs, topic, ctx⟩
    topic fuel initState stS (Except.ok rc.«structure») hS
  have hstS : stS.trace = new1 := by simpa using htr1
  obtain ⟨new2, htr2, hmem2, _, _, _, hlast⟩ := sections_loop_spec env ⟨docs, topic, ctx⟩
    topic docs rc.«structure».sections fuel stS "" st (Except.ok rc.content) hsec
  obtain ⟨hmap, contents, hlen, hdoc, _⟩ := hlast rc.content rfl
  have htrace : st.trace = new1 ++ new2 := by rw [htr2, hstS]
  have hfilter1 : new1.filter isDraftCall = [] := by
    refine List.filter_eq_nil_iff.mpr ?_
    intro a ha
    simp [isDraftCall_false_deleg (hmem1 a ha).2.1]
  refine ⟨?_, ?_, contents, hlen, ?_⟩
  · intro rec hrec hwr
    rw [htrace] at hrec
    rcases List.mem_append.mp hrec with hrec | hrec
    · rw [(hmem1 rec hrec).2.1] at hwr
      exact absurd hwr (by simp)
    · obtain ⟨_, _, sec, hsecmem, hdis⟩ := hmem2 rec hrec
      refine ⟨sec, hsecmem, ?_⟩
      rcases hdis with ⟨_, hp⟩ | ⟨fb, hh, _, hp⟩
      · exact Or.inl hp
      · exact Or.inr ⟨fb, hp⟩
  · rw [htrace, List.filter_append, hfilter1, List.nil_append]
    have := congrArg List.length hmap
    simpa using this
  · rw [hdoc]
    rfl

/-- If a run's result is not a collaborator failure, every collaborator
call recorded in its trace succeeded (the interpreter aborts at the first
failing call). -/
theorem no_failed_call_unless_collab (env : Env) (fuel : Nat) (docs : List String)
    (topic : String) (ctx : Option String)
    (hnc : ∀ e, (generate_report env fuel docs topic ctx).2
      ≠ Except.error (RunError.collab e)) :
    ∀ rec ∈ (generate_report env fuel docs topic ctx).1.trace,
      ∃ x, rec.result = Except.ok x := by
  cases hS : structure_loop env ⟨docs, topic, ctx⟩ topic none fuel initState with
  | mk stS rS =>
    obtain ⟨new1, htr1, _, _, _, hok1, _⟩ := structure_loop_spec env ⟨docs, topic, ctx⟩
      topic fuel initState stS rS hS
    have hstS : stS.trace = new1 := by simpa using htr1
    cases rS with
    | error e =>
      have hgen := generate_report_structure_error env fuel docs topic ctx stS e hS
      intro rec hrec
      rw [hgen] at hrec
      have hrec2 : rec ∈ stS.trace := hrec
      rw [hstS] at hrec2
      refine hok1 ?_ rec hrec2
      intro e2 he2
      apply hnc e2
      rw [hgen]
      injection he2 with he3
      subst he3
      rfl
    | ok fs =>
      have hgen := generate_report_def env fuel docs topic ctx stS fs hS
      cases hsec : sections_loop env ⟨docs, topic, ctx⟩ topic docs fs.sections fuel stS "" with
      | mk st2 r2 =>
        rw [hsec] at hgen
        obtain ⟨new2, htr2, _, _, _, hok2, _⟩ := sections_loop_spec env ⟨docs, topic, ctx⟩
          topic docs fs.sections fuel stS "" st2 r2 hsec
        intro rec hrec
        have htreq : (generate_report env fuel docs topic ctx).1.trace = st2.trace := by
          rw [hgen]
          cases r2 <;> rfl
        rw [htreq] at hrec
        rw [htr2, hstS] at hrec
        rcases List.mem_append.mp hrec with hr | hr
        · exact hok1 (fun e2 he2 => Except.noConfusion he2) rec hr
        · refine hok2 ?_ rec hr
          intro e2 he2
          apply hnc e2
          rw [hgen, he2]

/-- C9: if any collaborator call of a run fails (its retry budget
exhausted), the run's result is a fatal collaborator error and `main`
writes no output file — no partial document is ever emitted. -/
theorem collaborator_failure_no_output (env : Env) (fuel : Nat) (docs : List String)
    (hfail : ∃ rec ∈ (generate_report env fuel docs mainTopic none).1.trace,
      ∃ e, rec.result = Except.error e) :
    (∃ e, (generate_report env fuel docs mainTopic none).2
        = Except.error (RunError.collab e))
    ∧ main_output env fuel docs = none := by
  by_cases hnc : ∃ e, (generate_report env fuel docs mainTopic none).2
      = Except.error (RunError.collab e)
  · obtain ⟨e, he⟩ := hnc
    refine ⟨⟨e, he⟩, ?_⟩
    cases hg : generate_report env fuel docs mainTopic none with
    | mk stx rx =>
      rw [hg] at he
      have he2 : rx = Except.error (RunError.collab e) := he
      subst he2
      simp only [main_output]
      rw [hg]
  · exfalso
    push_neg at hnc
    obtain ⟨rec, hrecmem, e0, hres⟩ := hfail
    obtain ⟨x, hx⟩ := no_failed_call_unless_collab env fuel docs mainTopic none hnc rec hrecmem
    rw [hx] at hres
    exact Except.noConfusion hres

/-- C10: if the first proposal is accepted and has zero sections, the run
raises no error and makes no writer-agent (drafting) call: it returns the
accepted empty structure with an empty assembled document. -/
theorem empty_structure_silent (env : Env) (fuel : Nat) (docs : List String)
    (topic : String) (ctx : Option String) (s0 : ReportStructure) (h0 : History)
    (hc : env.delegation_run 0 = Except.ok (s0, h0))
    (ha : env.ask 0 = "accept")
    (hempty : s0.sections = [])
    (hfuel : 1 ≤ fuel) :
    ∃ st, generate_report env fuel docs topic ctx = (st, Except.ok ⟨s0, ""⟩)
      ∧ ∀ rec ∈ st.trace, rec.agent = AgentKind.delegation := by
  obtain ⟨f, rfl⟩ : ∃ f, fuel = f + 1 := ⟨fuel - 1, by omega⟩
  have hS := structure_loop_first_accept env ⟨docs, topic, ctx⟩ topic none f initState
    s0 h0 (by simpa using hc) (by simpa using ha)
  rw [generate_report_def env (f + 1) docs topic ctx _ s0 hS]
  rw [hempty]
  refine ⟨_, rfl, ?_⟩
  intro rec hrec
  simp only [bumpAsk_trace, logDeleg_trace, initState_trace, List.nil_append,
    List.mem_singleton] at hrec
  subst hrec
  rfl

/-! Concrete environments and witnesses instantiating the theorems above. -/

/-- A structure with one section that carries a non-empty subsection
list. -/
def sOne : ReportStructure := ⟨"T", [⟨"S", none, [⟨"Sub", none⟩]⟩], none⟩

/-- Environment that accepts everything on the first decision. -/
def envW : Env :=
  ⟨fun _ => Except.ok (sOne, ["m"]),
   fun _ => Except.ok ("body", ["w"]),
   fun _ => "accept",
   fun _ => "fb"⟩

/-- The terminal report of the `envW` run. -/
def rcW : ReportContent := ⟨sOne, "" ++ sectionBlock "S" "body"⟩

/-- Environment whose every collaborator call fails. -/
def envF : Env :=
  ⟨fun _ => Except.error ⟨"retry budget exhausted"⟩,
   fun _ => Except.error ⟨"retry budget exhausted"⟩,
   fun _ => "accept",
   fun _ => "fb"⟩

/-- Environment that accepts an empty structure on the first decision. -/
def envC10 : Env :=
  ⟨fun _ => Except.ok (sEmpty, ["m"]),
   fun _ => Except.ok ("c", ["w"]),
   fun _ => "accept",
   fun _ => "fb"⟩

/-- Environment for the twice-revised section scenario. -/
def envC4 : Env :=
  ⟨fun _ => Except.ok (sEmpty, ["m"]),
   fun n => Except.ok ("c" ++ toString n, ["w" ++ toString n]),
   fun n => if n < 2 then "revise" else "accept",
   fun _ => "fb"⟩

theorem second_modify_starts_third_round_witness :
    envC1.delegation_run 0 = Except.ok (sEmpty, ["m"])
    ∧ envC1.delegation_run 1 = Except.ok (sEmpty, ["m"])
    ∧ envC1.ask 0 = "modify" ∧ envC1.ask 1 = "modify" ∧ 2 ≤ 3
    ∧ 3 ≤ delegCount (generate_report envC1 3 [] "t" none).1.trace :=
  ⟨rfl, rfl, rfl, rfl, by omega,
    second_modify_starts_third_round envC1 3 [] "t" none sEmpty sEmpty ["m"] ["m"]
      rfl rfl rfl rfl (by omega)⟩

theorem history_threading_witness :
    List.Chain' linked (generate_report envW 2 ["d"] "t" none).1.trace :=
  (history_threading envW 2 ["d"] "t" none).1

theorem third_round_discards_history_witness :
    ((generate_report envC1 3 [] "t" none).1.trace[2]?).map CallRecord.historyIn
        = some none
    ∧ ((generate_report envC1 3 [] "t" none).1.trace[2]?).map CallRecord.prompt
        = some (structRequestPrompt "t") :=
  ⟨(third_round_discards_history envC1 3 [] "t" none sEmpty sEmpty ["m"] ["m"]
      rfl rfl rfl rfl (by omega)).2.2,
   (third_round_discards_history envC1 3 [] "t" none sEmpty sEmpty ["m"] ["m"]
      rfl rfl rfl rfl (by omega)).2.1⟩

theorem sections_loop_first_section_witness :
    ∃ st2, sections_loop envC4 ⟨["d"], "t", none⟩ "t" ["d"]
        [⟨"S", none, []⟩] 3 initState ""
        = sections_loop envC4 ⟨["d"], "t", none⟩ "t" ["d"] [] 3 st2
            ("" ++ sectionBlock "S" ("c" ++ toString 2))
      ∧ st2.askN = initState.askN + 2 + 1 :=
  sections_loop_first_section envC4 ⟨["d"], "t", none⟩ "t" ["d"] ⟨"S", none, []⟩ []
    2 3 initState "" (fun n => "c" ++ toString n) (fun n => ["w" ++ toString n])
    (by intro i hi; simp [envC4])
    (by intro i hi; simp [envC4, hi])
    (by simp [envC4])
    (by omega)

theorem final_content_concatenates_sections_witness :
    generate_report envW 2 ["d"] "t" none
      = ((generate_report envW 2 ["d"] "t" none).1, Except.ok rcW)
    ∧ ∃ contents, contents.length = rcW.«structure».sections.length
      ∧ rcW.content = concatList (List.zipWith sectionBlock
          (rcW.«structure».sections.map ReportSection.title) contents)
      ∧ ∀ c ∈ contents, ∃ rec ∈ (generate_report envW 2 ["d"] "t" none).1.trace,
          rec.agent = AgentKind.writer
          ∧ ∃ hst, rec.result = Except.ok (CallData.textData c, hst) :=
  ⟨rfl, final_content_concatenates_sections envW 2 ["d"] "t" none
    (generate_report envW 2 ["d"] "t" none).1 rcW rfl⟩

/-- The first record of the `envW` run. -/
def recW0 : CallRecord :=
  ⟨AgentKind.delegation, structRequestPrompt "t", ⟨["d"], "t", none⟩, none,
   Except.ok (CallData.structData sOne, ["m"])⟩

theorem context_passed_unchanged_witness :
    recW0 ∈ (generate_report envW 2 ["d"] "t" none).1.trace
    ∧ recW0.deps = ⟨["d"], "t", none⟩
    ∧ recW0.prompt = structRequestPrompt "t" := by
  have hm : recW0 ∈ (generate_report envW 2 ["d"] "t" none).1.trace := by decide
  have h := context_passed_unchanged envW 2 ["d"] "t" none recW0 hm
  exact ⟨hm, h.1, h.2.1 rfl rfl⟩

theorem draft_prompts_depend_only_on_title_topic_sources_witness :
    ((generate_report envW 2 ["d"] "t" none).1.trace.filter isDraftCall).map
        CallRecord.prompt
      = [sectionDraftPrompt "S" "t" ["d"]] :=
  ((draft_prompts_depend_only_on_title_topic_sources).1 envW 2 ["d"] "t" none
    (generate_report envW 2 ["d"] "t" none).1 rcW rfl).1.trans rfl

theorem subsections_not_drafted_or_rendered_witness :
    rcW.«structure».sections = [⟨"S", none, [⟨"Sub", none⟩]⟩]
    ∧ ((generate_report envW 2 ["d"] "t" none).1.trace.filter isDraftCall).length
        = rcW.«structure».sections.length :=
  ⟨rfl, (subsections_not_drafted_or_rendered envW 2 ["d"] "t" none
    (generate_report envW 2 ["d"] "t" none).1 rcW rfl).2.1⟩

theorem collaborator_failure_no_output_witness :
    (∃ e, (generate_report envF 1 [] mainTopic none).2
        = Except.error (RunError.collab e))
    ∧ main_output envF 1 [] = none := by
  refine collaborator_failure_no_output envF 1 [] ?_
  refine ⟨⟨AgentKind.delegation, structRequestPrompt mainTopic, ⟨[], mainTopic, none⟩,
    none, Except.error ⟨"retry budget exhausted"⟩⟩, ?_, ⟨"retry budget exhausted"⟩, rfl⟩
  have ht : (generate_report envF 1 [] mainTopic none).1.trace
      = [⟨AgentKind.delegation, structRequestPrompt mainTopic, ⟨[], mainTopic, none⟩,
          none, Except.error ⟨"retry budget exhausted"⟩⟩] := rfl
  rw [ht]
  exact List.mem_singleton.mpr rfl

theorem empty_structure_silent_witness :
    envC10.delegation_run 0 = Except.ok (sEmpty, ["m"])
    ∧ envC10.ask 0 = "accept" ∧ sEmpty.sections = []
    ∧ ∃ st, generate_report envC10 1 [] "t" none = (st, Except.ok ⟨sEmpty, ""⟩)
      ∧ ∀ rec ∈ st.trace, rec.agent = AgentKind.delegation :=
  ⟨rfl, rfl, rfl,
    empty_structure_silent envC10 1 [] "t" none sEmpty ["m"] rfl rfl rfl (by omega)⟩

end ReportGen
